import Mathlib

/-!
Verification of the two-tier caching core of the unleash-nextjs SDK.

The development shallowly embeds the two source files:

* `src/lib/src/getDefinitions.ts` — the conditional-fetch protocol
  (`getDefinitions`): header assembly, composite cache key
  (`getCacheKey`, a `JSON.stringify` of the four identity fields),
  `if-none-match` injection from the cache, and the 304/2xx/other
  response handling that updates the module-level definitions cache.
* `src/lib/src/flag.ts` — the per-flag evaluation operation (`flag`):
  the single-slot evaluation cache, the freshness/reuse decision, and
  the catch-all error boundary.  Its collaborators
  (`getDefinitionsCached`, `evaluateFlags`, `flagsClient`) live outside
  the embedded sources and are modelled as oracle parameters, so the
  theorems quantify over every behaviour of those collaborators.

JavaScript semantics that matter are embedded explicitly: truthiness of
optional strings (`undefined` and `""` are falsy), `===` on object
references (definitions payloads are modelled by opaque identities of
type `Nat`, so value equality of the model is reference equality of the
source), `??` on optional values, and JS `Map`/object field update.
-/

namespace Unleash

/-! ### Characters and JSON string encoding

`getCacheKey` and `serializeContext` both rely on `JSON.stringify`.
The encoding below follows ECMA-262 `QuoteJSONString`: `"` and `\`
are escaped with a backslash, the named control characters become
two-character escapes, all remaining control characters become
`\u00XX`, and every other character is emitted unchanged. -/

abbrev Chars := List Char

def lbrace : Char := Char.ofNat 123

def rbrace : Char := Char.ofNat 125

def hexDigit (n : Nat) : Char :=
  if n < 10 then Char.ofNat (48 + n) else Char.ofNat (87 + n)

def hexVal (c : Char) : Nat :=
  if c.toNat ≤ 57 then c.toNat - 48 else c.toNat - 87

def escChar (c : Char) : Chars :=
  if c = '"' then ['\\', '"']
  else if c = '\\' then ['\\', '\\']
  else if c = Char.ofNat 8 then ['\\', 'b']
  else if c = Char.ofNat 9 then ['\\', 't']
  else if c = Char.ofNat 10 then ['\\', 'n']
  else if c = Char.ofNat 12 then ['\\', 'f']
  else if c = Char.ofNat 13 then ['\\', 'r']
  else if c.toNat < 32 then
    ['\\', 'u', '0', '0', hexDigit (c.toNat / 16), hexDigit (c.toNat % 16)]
  else [c]

def escStr : Chars → Chars
  | [] => []
  | c :: cs => escChar c ++ escStr cs

/-- Decoder for one JSON string literal: consumes characters up to and
including the closing quote, undoing `escChar`.  Fuel-indexed to keep
the recursion structural; it is only used through `decodeKey`, which
supplies the length of its input as fuel. -/
def unescapeF : Nat → Chars → Option (Chars × Chars)
  | 0, _ => none
  | _ + 1, [] => none
  | fuel + 1, c :: cs =>
    if c = '"' then some ([], cs)
    else if c = '\\' then
      match cs with
      | [] => none
      | e :: cs2 =>
        if e = '"' then (unescapeF fuel cs2).map (fun p => ('"' :: p.1, p.2))
        else if e = '\\' then (unescapeF fuel cs2).map (fun p => ('\\' :: p.1, p.2))
        else if e = 'b' then (unescapeF fuel cs2).map (fun p => (Char.ofNat 8 :: p.1, p.2))
        else if e = 't' then (unescapeF fuel cs2).map (fun p => (Char.ofNat 9 :: p.1, p.2))
        else if e = 'n' then (unescapeF fuel cs2).map (fun p => (Char.ofNat 10 :: p.1, p.2))
        else if e = 'f' then (unescapeF fuel cs2).map (fun p => (Char.ofNat 12 :: p.1, p.2))
        else if e = 'r' then (unescapeF fuel cs2).map (fun p => (Char.ofNat 13 :: p.1, p.2))
        else if e = 'u' then
          match cs2 with
          | h1 :: h2 :: h3 :: h4 :: cs3 =>
            (unescapeF fuel cs3).map
              (fun p =>
                (Char.ofNat (((hexVal h1 * 16 + hexVal h2) * 16 + hexVal h3) * 16 + hexVal h4)
                    :: p.1,
                  p.2))
          | _ => none
        else none
    else (unescapeF fuel cs).map (fun p => (c :: p.1, p.2))

/-- Strips an expected literal from the front of a character list. -/
def stripL : Chars → Chars → Option Chars
  | [], t => some t
  | _ :: _, [] => none
  | p :: ps, c :: cs => if p = c then stripL ps cs else none

/-! ### The composite cache key

`getCacheKey(url, headers)` in the source is
`JSON.stringify({url, authorization: headers["authorization"] || "",
instanceId: headers["unleash-instanceid"] || "",
appName: headers["unleash-appname"] || ""})`.
`encodeKeyObj` spells out exactly the string `JSON.stringify` produces
for that four-field object literal. -/

def keyP1 : Chars := lbrace :: ("\"url\":\"").data

def keyP2 : Chars := (",\"authorization\":\"").data

def keyP3 : Chars := (",\"instanceId\":\"").data

def keyP4 : Chars := (",\"appName\":\"").data

def encodeKeyObj (url auth inst app : Chars) : Chars :=
  keyP1 ++ (escStr url ++ ('"' ::
    (keyP2 ++ (escStr auth ++ ('"' ::
      (keyP3 ++ (escStr inst ++ ('"' ::
        (keyP4 ++ (escStr app ++ ('"' :: [rbrace])))))))))))

/-- Left inverse of `encodeKeyObj`; used to prove that the composite
cache key determines its four composing fields. -/
def decodeKey (s : Chars) : Option (Chars × Chars × Chars × Chars) :=
  let fuel := s.length
  (stripL keyP1 s).bind (fun s1 =>
    (unescapeF fuel s1).bind (fun pu =>
      (stripL keyP2 pu.2).bind (fun s3 =>
        (unescapeF fuel s3).bind (fun pa =>
          (stripL keyP3 pa.2).bind (fun s5 =>
            (unescapeF fuel s5).bind (fun pq =>
              (stripL keyP4 pq.2).bind (fun s7 =>
                (unescapeF fuel s7).map (fun pn =>
                  (pu.1, pa.1, pq.1, pn.1)))))))))

/-! ### Headers and the definitions cache map -/

/-- A JS string-keyed record of header values; assignment overwrites in
place, lookup is by key. -/
abbrev Headers := List (String × String)

def hlookup (h : Headers) (k : String) : Option String :=
  (h.find? (fun kv => kv.1 == k)).map (fun kv => kv.2)

/-- JS object assignment `h[k] = v`: overwrite the existing entry in
place, or append a new one. -/
def hset (h : Headers) (k v : String) : Headers :=
  if h.any (fun kv => kv.1 == k) then
    h.map (fun kv => if kv.1 == k then (k, v) else kv)
  else h ++ [(k, v)]

/-- JS truthiness of an optional string: `undefined` and `""` are
falsy, every other string is truthy. -/
def truthyO (o : Option String) : Bool :=
  match o with
  | none => false
  | some s => !(s == "")

/-- One entry of the module-level definitions cache:
`{etag?: string, definitions?: ClientFeaturesResponse}`. -/
structure CacheEntry where
  etag : Option String
  definitions : Option Nat
deriving DecidableEq, Repr

/-- The module-level `Map<string, CacheEntry>` of `getDefinitions.ts`,
modelled as an association list with JS `Map` get/set/delete. -/
abbrev DefsMap := List (String × CacheEntry)

def mapGet (m : DefsMap) (k : String) : Option CacheEntry :=
  (m.find? (fun e => e.1 == k)).map (fun e => e.2)

def mapSet (m : DefsMap) (k : String) (v : CacheEntry) : DefsMap :=
  if m.any (fun e => e.1 == k) then
    m.map (fun e => if e.1 == k then (k, v) else e)
  else m ++ [(k, v)]

def mapDelete (m : DefsMap) (k : String) : DefsMap :=
  m.filter (fun e => !(e.1 == k))

/-! ### The conditional fetch protocol (`getDefinitions`)

The configuration below is the post-resolution input of
`getDefinitions`: the merged `{...getDefaultConfig(), ...config}`
record.  Environment-variable resolution and the console warnings are
out of scope of the claims; `URL` normalisation is modelled as the
identity on the already-resolved endpoint string.  The definitions
payload (`ClientFeaturesResponse`) is opaque to this code and modelled
by its object identity, a `Nat`. -/

def defaultToken : String := "default:development.unleash-insecure-api-token"

structure FetchConfig where
  url : String
  appName : String
  token : Option String
  instanceId : Option String
  specVersion : String
  sdkVersion : String
  callerHeaders : List (String × String)

/-- Source: `const sendAuthorizationToken = !instanceId || token !== defaultToken;`. -/
def sendAuthorizationToken (cfg : FetchConfig) : Bool :=
  !truthyO cfg.instanceId || !(cfg.token == some defaultToken)

/-- JS `key.toLowerCase()` restricted to the ASCII range (header names
are ASCII): map the characters A–Z to a–z. -/
def lowerChar (c : Char) : Char :=
  if 65 ≤ c.toNat ∧ c.toNat ≤ 90 then Char.ofNat (c.toNat + 32) else c

def lowerString (s : String) : String :=
  String.mk (s.data.map lowerChar)

/-- The header object assembled by `getDefinitions` before the
cache-derived conditional header is injected: the five fixed headers,
then `authorization` and `unleash-instanceid` when applicable, then the
caller's `fetchOptions.headers` with lower-cased keys (last write
wins). -/
def buildHeaders (cfg : FetchConfig) : Headers :=
  let h : Headers :=
    [("content-type", "application/json"),
     ("user-agent", cfg.appName),
     ("unleash-client-spec", cfg.specVersion),
     ("unleash-sdk", cfg.sdkVersion),
     ("unleash-appname", cfg.appName)]
  let h := if sendAuthorizationToken cfg && truthyO cfg.token then
      hset h "authorization" (cfg.token.getD "")
    else h
  let h := if truthyO cfg.instanceId then
      hset h "unleash-instanceid" (cfg.instanceId.getD "")
    else h
  cfg.callerHeaders.foldl (fun acc kv => hset acc (lowerString kv.1) kv.2) h

/-- Source `getCacheKey`: `JSON.stringify` of the object holding the
url and the three identity headers, with `|| ""` defaulting. -/
def getCacheKey (url : String) (headers : Headers) : String :=
  String.mk (encodeKeyObj url.data
    ((hlookup headers "authorization").getD "").data
    ((hlookup headers "unleash-instanceid").getD "").data
    ((hlookup headers "unleash-appname").getD "").data)

def cacheKeyOf (cfg : FetchConfig) : String :=
  getCacheKey cfg.url (buildHeaders cfg)

/-- Source: `if (!headers["if-none-match"] && cached?.etag)
headers["if-none-match"] = cached.etag;`. -/
def injectINM (h : Headers) (cachedEtag : Option String) : Headers :=
  if !truthyO (hlookup h "if-none-match") && truthyO cachedEtag then
    hset h "if-none-match" (cachedEtag.getD "")
  else h

/-- The headers actually passed to `fetch`, for a given configuration
and definitions-cache state. -/
def sentHeadersOf (cfg : FetchConfig) (cache : DefsMap) : Headers :=
  injectINM (buildHeaders cfg)
    ((mapGet cache (cacheKeyOf cfg)).bind CacheEntry.etag)

/-- The transport's answer: HTTP status, the `etag` response header
(`response.headers.get("etag")`, `none` for null), and the outcome of
`response.json()` (`Except.error` models a body that fails to parse,
carrying an opaque error identity). -/
structure Response where
  status : Nat
  etagHeader : Option String
  body : Except Nat Nat

/-- JS `Response.ok`: status in `[200, 300)`. -/
def respOk (status : Nat) : Bool :=
  decide (200 ≤ status) && decide (status < 300)

inductive FetchError where
  /-- The `Error` thrown on a 304 with no cached payload. -/
  | staleCache : FetchError
  /-- A `response.json()` rejection, propagated unchanged. -/
  | parse : Nat → FetchError
deriving DecidableEq, Repr

/-- Response handling of `getDefinitions`: the 304 branch (return the
cached payload or throw), then `await response.json()`, then the
cache update that only the 2xx path performs. -/
def handleResponse (cache : DefsMap) (key : String) (cached : Option CacheEntry)
    (resp : Response) : Except FetchError Nat × DefsMap :=
  if resp.status == 304 then
    match cached.bind CacheEntry.definitions with
    | some d => (Except.ok d, cache)
    | none => (Except.error FetchError.staleCache, cache)
  else
    match resp.body with
    | Except.error e => (Except.error (FetchError.parse e), cache)
    | Except.ok definitions =>
      if respOk resp.status then
        match resp.etagHeader with
        | some t =>
          if t == "" then (Except.ok definitions, mapDelete cache key)
          else (Except.ok definitions, mapSet cache key ⟨some t, some definitions⟩)
        | none => (Except.ok definitions, mapDelete cache key)
      else (Except.ok definitions, cache)

structure FetchOutcome where
  sentHeaders : Headers
  result : Except FetchError Nat
  cache : DefsMap

/-- The embedded `getDefinitions`: compute the key from the merged
headers, look up the cache, inject the conditional header, call the
transport (`respond`, a parameter standing for `fetch`), and handle
the response. -/
def getDefinitions (cfg : FetchConfig) (cache : DefsMap)
    (respond : Headers → Response) : FetchOutcome :=
  let key := cacheKeyOf cfg
  let cached := mapGet cache key
  let sent := sentHeadersOf cfg cache
  let resp := respond sent
  let rc := handleResponse cache key cached resp
  ⟨sent, rc.1, rc.2⟩

/-! ### The per-flag evaluation operation (`flag`)

`flag.ts` consumes three collaborators that live outside the embedded
sources: `getDefinitionsCached` (which may mutate the caller's
definitions-cache handle and may throw), `evaluateFlags`, and
`flagsClient` (whose construction and whose `isEnabled`/`getVariant`
calls may each throw).  They are modelled as oracle fields of
`FlagOracles`, so every theorem about `flagRun` quantifies over every
behaviour of those collaborators.  Thrown values (`unknown` in the
source) are modelled by opaque identities of type `Nat`. -/

/-- The caller-owned definitions-cache handle used by `flag.ts`
(`DefinitionsCache` import): `{etag?: string, definitions?}`. -/
structure DefinitionsCache where
  etag : Option String
  definitions : Option Nat
deriving DecidableEq, Repr

/-- The single-slot evaluation cache of `flag.ts`. -/
structure EvaluationCache where
  etag : Option String
  definitions : Option Nat
  contextKey : Option String
  toggles : Option (List Nat)
deriving DecidableEq, Repr

/-- A `Partial<IVariant>`: both fields optional, `⟨none, none⟩` is the
empty object `{}` returned from the catch branch. -/
structure Variant where
  name : Option String
  enabled : Option Bool
deriving DecidableEq, Repr

def emptyVariant : Variant := ⟨none, none⟩

/-- The value `flag` resolves with:
`{enabled, variant, error?}`. -/
structure FlagResult where
  enabled : Bool
  variant : Variant
  error : Option Nat
deriving DecidableEq, Repr

/-- The object returned by the `flagsClient` collaborator. -/
structure FlagsClient where
  isEnabled : String → Except Nat Bool
  getVariant : String → Except Nat Variant

/-- The three collaborators of `flag.ts`.  `fetchDefs` returns the
definitions-cache handle's post-state together with either the fetched
payload or a thrown error (a throwing fetch may still have mutated the
handle first).  Toggles are opaque to `flag.ts` and modelled by
identities of type `Nat`. -/
structure FlagOracles where
  fetchDefs : DefinitionsCache → DefinitionsCache × Except Nat Nat
  evaluateFlags : Nat → List (String × String) → Except Nat (List Nat)
  flagsClient : List Nat → Except Nat FlagsClient

/-- The caller-supplied context, a JS object whose field insertion
order is observable to `JSON.stringify`; values are modelled as
strings. -/
abbrev Context := List (String × String)

def jsonFields : List (String × String) → Chars
  | [] => []
  | [(k, v)] => ('"' :: escStr k.data ++ ('"' :: ':' :: '"' :: escStr v.data ++ ['"']))
  | (k, v) :: rest =>
    ('"' :: escStr k.data ++ ('"' :: ':' :: '"' :: escStr v.data ++ ['"'])) ++
      ',' :: jsonFields rest

/-- Source: `const serializeContext = (context = \x7b\x7d) =>
JSON.stringify(context);` — order-sensitive by design. -/
def serializeContext (context : Context) : String :=
  String.mk (lbrace :: jsonFields context ++ [rbrace])

/-- Source: the freshness signal of `flag.ts`:
`evaluationCache.etag && definitionsCache.etag ?
evaluationCache.etag === definitionsCache.etag :
evaluationCache.definitions === definitionsCache.definitions`.
Note `undefined === undefined` is `true`, which the `Option` equality
mirrors. -/
def definitionsMatch (ec : EvaluationCache) (dc : DefinitionsCache) : Bool :=
  if truthyO ec.etag && truthyO dc.etag then ec.etag == dc.etag
  else ec.definitions == dc.definitions

/-- The reuse condition of `flag.ts`: `evaluationCache.toggles &&
evaluationCache.contextKey === contextKey && definitionsMatch`.
A JS array is truthy even when empty, hence `isSome`. -/
def reuseHit (ec : EvaluationCache) (dc : DefinitionsCache) (contextKey : String) : Bool :=
  ec.toggles.isSome && (ec.contextKey == some contextKey) && definitionsMatch ec dc

/-- Everything `flag` observably does in one call: the two cache
post-states, the resolved result, whether `evaluateFlags` was invoked,
and the toggle list handed to `flagsClient` (if the call got that
far). -/
structure FlagOutcome where
  dc : DefinitionsCache
  ec : EvaluationCache
  result : FlagResult
  evaluatorInvoked : Bool
  togglesUsed : Option (List Nat)
deriving DecidableEq, Repr

/-- The tail of the `try` block: `flagsClient(toggles)`,
`client.isEnabled(flag)`, `client.getVariant(flag)`, each converted to
the catch-branch result `{enabled: false, variant: {}, error}` on a
throw. -/
def clientPhase (o : FlagOracles) (name : String) (dc : DefinitionsCache)
    (ec : EvaluationCache) (invoked : Bool) (toggles : List Nat) : FlagOutcome :=
  match o.flagsClient toggles with
  | Except.error e => ⟨dc, ec, ⟨false, emptyVariant, some e⟩, invoked, some toggles⟩
  | Except.ok client =>
    match client.isEnabled name with
    | Except.error e => ⟨dc, ec, ⟨false, emptyVariant, some e⟩, invoked, some toggles⟩
    | Except.ok en =>
      match client.getVariant name with
      | Except.error e => ⟨dc, ec, ⟨false, emptyVariant, some e⟩, invoked, some toggles⟩
      | Except.ok v => ⟨dc, ec, ⟨en, v, none⟩, invoked, some toggles⟩

/-- The embedded `flag` operation of `flag.ts`: fetch (possibly
mutating the definitions-cache handle), serialize the context, decide
reuse, either reuse the stored toggles or invoke the evaluator and
overwrite the evaluation cache (`definitions` falling back to the
fetched payload via `??`), then build the client; any throw anywhere
resolves to `{enabled: false, variant: {}, error}`. -/
def flagRun (o : FlagOracles) (name : String) (context : Context)
    (dc0 : DefinitionsCache) (ec0 : EvaluationCache) : FlagOutcome :=
  match o.fetchDefs dc0 with
  | (dc, Except.error e) => ⟨dc, ec0, ⟨false, emptyVariant, some e⟩, false, none⟩
  | (dc, Except.ok definitions) =>
    let contextKey := serializeContext context
    if reuseHit ec0 dc contextKey then
      clientPhase o name dc ec0 false (ec0.toggles.getD [])
    else
      match o.evaluateFlags definitions context with
      | Except.error e => ⟨dc, ec0, ⟨false, emptyVariant, some e⟩, true, none⟩
      | Except.ok toggles =>
        let ec1 : EvaluationCache :=
          ⟨dc.etag,
            (match dc.definitions with
             | some d => some d
             | none => some definitions),
            some contextKey, some toggles⟩
        clientPhase o name dc ec1 true toggles

/-- The claims' "carries a non-empty etag" (JS truthiness of an
optional string). -/
def NonEmptyEtag (o : Option String) : Prop := ∃ s, o = some s ∧ s ≠ ""

/-- The freshness signal as the spec words it: etag equality when both
sides carry a non-empty etag, otherwise identity equality of the
evaluation cache's stored definitions with the definitions cache's
current definitions. -/
def FreshnessSignal (ec : EvaluationCache) (dc : DefinitionsCache) : Prop :=
  (NonEmptyEtag ec.etag ∧ NonEmptyEtag dc.etag ∧ ec.etag = dc.etag) ∨
    (¬(NonEmptyEtag ec.etag ∧ NonEmptyEtag dc.etag) ∧ ec.definitions = dc.definitions)

/-! ### Concrete instances for the claim theorems above -/

/-- A client oracle that always answers. -/
def wClient : FlagsClient := ⟨fun _ => Except.ok true, fun _ => Except.ok emptyVariant⟩

/-- A fetch oracle that leaves the handle untouched and returns payload
5, with evaluator and client that always succeed. -/
def wOracles : FlagOracles :=
  ⟨fun dcx => (dcx, Except.ok 5), fun _ _ => Except.ok [2], fun _ => Except.ok wClient⟩

def wDC : DefinitionsCache := ⟨some "etag-1", some 5⟩

def wEC : EvaluationCache := ⟨some "etag-1", some 5, some (serializeContext []), some [1]⟩

/-- A fetch oracle that returns payload 7 while leaving the handle
empty — precisely what a 2xx response without an ETag produces through
`getDefinitionsCached` (the entry is evicted, so the handle carries no
etag and no definitions). -/
def cxOracles : FlagOracles :=
  ⟨fun dcx => (dcx, Except.ok 7), fun _ _ => Except.ok [3], fun _ => Except.ok wClient⟩

def cxDC : DefinitionsCache := ⟨none, none⟩

def cxEC : EvaluationCache := ⟨none, none, none, none⟩

/-- Configuration and transport used for the C4 evaluations. -/
def c4cfg : FetchConfig := ⟨"http://u", "app", none, none, "1.0", "sdk", []⟩

/-- A transport answering 200 with an empty-string ETag header. -/
def c4respond : Headers → Response := fun _ => ⟨200, some "", Except.ok 3⟩

/-- A transport answering 200 with a non-empty ETag header. -/
def c4wrespond : Headers → Response := fun _ => ⟨200, some "etag-1", Except.ok 3⟩

/-- Configuration for the C5 evaluations: the caller explicitly
supplies an `If-None-Match` header whose value is the empty string. -/
def c5cfg : FetchConfig :=
  ⟨"http://u", "app", none, none, "1.0", "sdk", [("If-None-Match", "")]⟩

def c5cache : DefsMap := [(cacheKeyOf c5cfg, ⟨some "etag-1", some 5⟩)]

/-- Configuration and cache for the C5 witness: no caller conditional
header, one cached entry with a non-empty etag. -/
def c5wcfg : FetchConfig := ⟨"http://u", "app", none, none, "1.0", "sdk", []⟩

def c5wcache : DefsMap := [(cacheKeyOf c5wcfg, ⟨some "etag-9", some 1⟩)]

/-- Configuration, cache and transport for the C3 witness: a 304
response whose body would fail to parse, with a cached payload 42. -/
def c3cfg : FetchConfig := ⟨"http://u3", "app", none, none, "1.0", "sdk", []⟩

def c3cache : DefsMap := [(cacheKeyOf c3cfg, ⟨some "etag-1", some 42⟩)]

def c3respond : Headers → Response := fun _ => ⟨304, some "etag-1", Except.error 0⟩

/-- Configuration and transport for the C6 witness: a 500 response
with parsed body 9. -/
def c6cfg : FetchConfig := ⟨"http://u6", "app", none, none, "1.0", "sdk", []⟩

def c6respond : Headers → Response := fun _ => ⟨500, none, Except.ok 9⟩

/-- Configuration and transport for the C10 witness: a 200 response
whose body fails to parse. -/
def c10cfg : FetchConfig := ⟨"http://u10", "app", none, none, "1.0", "sdk", []⟩

def c10respond : Headers → Response := fun _ => ⟨200, some "e", Except.error 4⟩

/-! ### Helper lemmas about `clientPhase` -/

theorem clientPhase_dc (o : FlagOracles) (name : String) (dc : DefinitionsCache)
    (ec : EvaluationCache) (invoked : Bool) (toggles : List Nat) :
    (clientPhase o name dc ec invoked toggles).dc = dc := by
  cases hc : o.flagsClient toggles with
  | error e => simp [clientPhase, hc]
  | ok client =>
    cases he : client.isEnabled name with
    | error e => simp [clientPhase, hc, he]
    | ok en =>
      cases hv : client.getVariant name with
      | error e => simp [clientPhase, hc, he, hv]
      | ok v => simp [clientPhase, hc, he, hv]

theorem clientPhase_ec (o : FlagOracles) (name : String) (dc : DefinitionsCache)
    (ec : EvaluationCache) (invoked : Bool) (toggles : List Nat) :
    (clientPhase o name dc ec invoked toggles).ec = ec := by
  cases hc : o.flagsClient toggles with
  | error e => simp [clientPhase, hc]
  | ok client =>
    cases he : client.isEnabled name with
    | error e => simp [clientPhase, hc, he]
    | ok en =>
      cases hv : client.getVariant name with
      | error e => simp [clientPhase, hc, he, hv]
      | ok v => simp [clientPhase, hc, he, hv]

theorem clientPhase_invoked (o : FlagOracles) (name : String) (dc : DefinitionsCache)
    (ec : EvaluationCache) (invoked : Bool) (toggles : List Nat) :
    (clientPhase o name dc ec invoked toggles).evaluatorInvoked = invoked := by
  cases hc : o.flagsClient toggles with
  | error e => simp [clientPhase, hc]
  | ok client =>
    cases he : client.isEnabled name with
    | error e => simp [clientPhase, hc, he]
    | ok en =>
      cases hv : client.getVariant name with
      | error e => simp [clientPhase, hc, he, hv]
      | ok v => simp [clientPhase, hc, he, hv]

theorem clientPhase_togglesUsed (o : FlagOracles) (name : String) (dc : DefinitionsCache)
    (ec : EvaluationCache) (invoked : Bool) (toggles : List Nat) :
    (clientPhase o name dc ec invoked toggles).togglesUsed = some toggles := by
  cases hc : o.flagsClient toggles with
  | error e => simp [clientPhase, hc]
  | ok client =>
    cases he : client.isEnabled name with
    | error e => simp [clientPhase, hc, he]
    | ok en =>
      cases hv : client.getVariant name with
      | error e => simp [clientPhase, hc, he, hv]
      | ok v => simp [clientPhase, hc, he, hv]

theorem clientPhase_result (o : FlagOracles) (name : String) (dc : DefinitionsCache)
    (ec : EvaluationCache) (invoked : Bool) (toggles : List Nat) :
    (∃ e, (clientPhase o name dc ec invoked toggles).result = ⟨false, emptyVariant, some e⟩) ∨
      (∃ client en v, o.flagsClient toggles = Except.ok client ∧
        client.isEnabled name = Except.ok en ∧
        client.getVariant name = Except.ok v ∧
        (clientPhase o name dc ec invoked toggles).result = ⟨en, v, none⟩) := by
  cases hc : o.flagsClient toggles with
  | error e => exact Or.inl ⟨e, by simp [clientPhase, hc]⟩
  | ok client =>
    cases he : client.isEnabled name with
    | error e => exact Or.inl ⟨e, by simp [clientPhase, hc, he]⟩
    | ok en =>
      cases hv : client.getVariant name with
      | error e => exact Or.inl ⟨e, by simp [clientPhase, hc, he, hv]⟩
      | ok v => exact Or.inr ⟨client, en, v, rfl, he, hv, by simp [clientPhase, hc, he, hv]⟩

/-! ### The freshness signal, spelled as the claims spell it -/


theorem truthyO_eq_true_iff (o : Option String) : truthyO o = true ↔ NonEmptyEtag o := by
  cases o with
  | none => simp [truthyO, NonEmptyEtag]
  | some s => simp [truthyO, NonEmptyEtag]


theorem definitionsMatch_iff (ec : EvaluationCache) (dc : DefinitionsCache) :
    definitionsMatch ec dc = true ↔ FreshnessSignal ec dc := by
  by_cases h1 : truthyO ec.etag = true <;> by_cases h2 : truthyO dc.etag = true
  · have n1 := (truthyO_eq_true_iff ec.etag).mp h1
    have n2 := (truthyO_eq_true_iff dc.etag).mp h2
    constructor
    · intro h
      exact Or.inl ⟨n1, n2, by
        simpa using (beq_iff_eq.mp (by simpa [definitionsMatch, h1, h2] using h))⟩
    · rintro (⟨_, _, heq⟩ | ⟨hn, _⟩)
      · simp [definitionsMatch, h1, h2, heq]
      · exact absurd ⟨n1, n2⟩ hn
  · have n2 : ¬NonEmptyEtag dc.etag := fun hn => h2 ((truthyO_eq_true_iff dc.etag).mpr hn)
    constructor
    · intro h
      exact Or.inr ⟨fun hb => n2 hb.2, by
        simpa using (beq_iff_eq.mp (by
          simpa [definitionsMatch, h1, h2] using h))⟩
    · rintro (⟨_, hb, _⟩ | ⟨_, heq⟩)
      · exact absurd hb n2
      · simp [definitionsMatch, h1, h2, heq]
  · have n1 : ¬NonEmptyEtag ec.etag := fun hn => h1 ((truthyO_eq_true_iff ec.etag).mpr hn)
    constructor
    · intro h
      exact Or.inr ⟨fun hb => n1 hb.1, by
        simpa using (beq_iff_eq.mp (by
          simpa [definitionsMatch, h1, h2] using h))⟩
    · rintro (⟨hb, _, _⟩ | ⟨_, heq⟩)
      · exact absurd hb n1
      · simp [definitionsMatch, h1, h2, heq]
  · have n1 : ¬NonEmptyEtag ec.etag := fun hn => h1 ((truthyO_eq_true_iff ec.etag).mpr hn)
    constructor
    · intro h
      exact Or.inr ⟨fun hb => n1 hb.1, by
        simpa using (beq_iff_eq.mp (by
          simpa [definitionsMatch, h1, h2] using h))⟩
    · rintro (⟨hb, _, _⟩ | ⟨_, heq⟩)
      · exact absurd hb n1
      · simp [definitionsMatch, h1, h2, heq]

/-- The code's reuse condition, characterised by the three conditions
of the spec. -/
theorem reuseHit_iff (ec : EvaluationCache) (dc : DefinitionsCache) (ck : String) :
    reuseHit ec dc ck = true ↔
      (ec.toggles.isSome = true ∧ ec.contextKey = some ck ∧ FreshnessSignal ec dc) := by
  unfold reuseHit
  simp [Bool.and_eq_true, definitionsMatch_iff, and_assoc]

/-! ### Claim theorems about `flag` -/

/-- C1: for a call of the flag-evaluation operation whose definitions
fetch returns normally (a `dc` post-state and a payload `d`), the
stored toggle list is reused — the external evaluator is not invoked
and the toggle list handed on is the stored one — if and only if the
evaluation cache holds a computed toggle list, its stored context key
equals the serialization of the caller's current context, and the
freshness signal (etag equality when both sides carry a non-empty
etag, otherwise identity of stored and current definitions) indicates
no change. -/
theorem flag_reuse_iff (o : FlagOracles) (name : String) (context : Context)
    (dc0 : DefinitionsCache) (ec0 : EvaluationCache) (dc : DefinitionsCache) (d : Nat)
    (hfetch : o.fetchDefs dc0 = (dc, Except.ok d)) :
    ((flagRun o name context dc0 ec0).evaluatorInvoked = false ∧
        (flagRun o name context dc0 ec0).togglesUsed = ec0.toggles) ↔
      (ec0.toggles.isSome = true ∧
        ec0.contextKey = some (serializeContext context) ∧
        FreshnessSignal ec0 dc) := by
  rw [← reuseHit_iff ec0 dc (serializeContext context)]
  by_cases hr : reuseHit ec0 dc (serializeContext context) = true
  · apply iff_of_true _ hr
    obtain ⟨l, hl⟩ := Option.isSome_iff_exists.mp ((reuseHit_iff _ _ _).mp hr).1
    simp [flagRun, hfetch, hr, clientPhase_invoked, clientPhase_togglesUsed, hl]
  · apply iff_of_false _ hr
    intro hcontra
    cases hev : o.evaluateFlags d context with
    | error e =>
      have := hcontra.1
      simp [flagRun, hfetch, hr, hev] at this
    | ok toggles =>
      have := hcontra.1
      simp [flagRun, hfetch, hr, hev, clientPhase_invoked] at this

/-- C2: whatever the collaborators do — the fetch, the evaluator, the
client construction, and both client calls may each throw — the
operation resolves with either the catch-branch value
`{enabled: false, variant: {}, error}` carrying the thrown value, or
the enabled/variant answer of the successfully built client with no
error; an exception never escapes. -/
theorem flag_error_boundary (o : FlagOracles) (name : String) (context : Context)
    (dc0 : DefinitionsCache) (ec0 : EvaluationCache) :
    (∃ e, (flagRun o name context dc0 ec0).result = ⟨false, emptyVariant, some e⟩) ∨
      (∃ toggles client en v,
        (flagRun o name context dc0 ec0).togglesUsed = some toggles ∧
        o.flagsClient toggles = Except.ok client ∧
        client.isEnabled name = Except.ok en ∧
        client.getVariant name = Except.ok v ∧
        (flagRun o name context dc0 ec0).result = ⟨en, v, none⟩) := by
  rcases hf : o.fetchDefs dc0 with ⟨dc, r⟩
  cases r with
  | error e => exact Or.inl ⟨e, by simp [flagRun, hf]⟩
  | ok d =>
    by_cases hr : reuseHit ec0 dc (serializeContext context) = true
    · rcases clientPhase_result o name dc ec0 false (ec0.toggles.getD []) with ⟨e, h⟩ |
        ⟨client, en, v, h1, h2, h3, h4⟩
      · exact Or.inl ⟨e, by simp [flagRun, hf, hr, h]⟩
      · exact Or.inr ⟨ec0.toggles.getD [], client, en, v,
          by simp [flagRun, hf, hr, clientPhase_togglesUsed], h1, h2, h3,
          by simp [flagRun, hf, hr, h4]⟩
    · cases hev : o.evaluateFlags d context with
      | error e => exact Or.inl ⟨e, by simp [flagRun, hf, hr, hev]⟩
      | ok toggles =>
        rcases clientPhase_result o name dc
            ⟨dc.etag,
              (match dc.definitions with
               | some x => some x
               | none => some d),
              some (serializeContext context), some toggles⟩ true toggles with
          ⟨e, h⟩ | ⟨client, en, v, h1, h2, h3, h4⟩
        · exact Or.inl ⟨e, by simp [flagRun, hf, hr, hev, h]⟩
        · exact Or.inr ⟨toggles, client, en, v,
            by simp [flagRun, hf, hr, hev, clientPhase_togglesUsed], h1, h2, h3,
            by simp [flagRun, hf, hr, hev, h4]⟩

/-- C8 (amended): on a cache miss with a successful fetch and a
successful evaluation, the evaluation cache is overwritten in full:
toggles are the newly computed list, the context key is the newly
serialized one, the etag is the definitions cache's current etag, and
the definitions field is the definitions cache's current definitions
reference — or, when the definitions cache holds none, the fetched
payload (the source's `definitionsCache.definitions ?? definitions`). -/
theorem flag_miss_overwrite (o : FlagOracles) (name : String) (context : Context)
    (dc0 : DefinitionsCache) (ec0 : EvaluationCache) (dc : DefinitionsCache) (d : Nat)
    (toggles : List Nat)
    (hfetch : o.fetchDefs dc0 = (dc, Except.ok d))
    (hmiss : reuseHit ec0 dc (serializeContext context) = false)
    (heval : o.evaluateFlags d context = Except.ok toggles) :
    (flagRun o name context dc0 ec0).ec =
      ⟨dc.etag,
        (match dc.definitions with
         | some x => some x
         | none => some d),
        some (serializeContext context), some toggles⟩ := by
  simp [flagRun, hfetch, hmiss, heval, clientPhase_ec]

/-- C9: when reuse is permitted (a cache hit), the evaluation cache is
left exactly as it was — the hit path performs no write to it. -/
theorem flag_hit_frame (o : FlagOracles) (name : String) (context : Context)
    (dc0 : DefinitionsCache) (ec0 : EvaluationCache) (dc : DefinitionsCache) (d : Nat)
    (hfetch : o.fetchDefs dc0 = (dc, Except.ok d))
    (hhit : reuseHit ec0 dc (serializeContext context) = true) :
    (flagRun o name context dc0 ec0).ec = ec0 := by
  simp [flagRun, hfetch, hhit, clientPhase_ec]


theorem flag_reuse_iff_witness :
    (flagRun wOracles "f" [] wDC wEC).evaluatorInvoked = false ∧
      (flagRun wOracles "f" [] wDC wEC).togglesUsed = wEC.toggles :=
  (flag_reuse_iff wOracles "f" [] wDC wEC wDC 5 rfl).mpr
    ⟨rfl, rfl, Or.inl ⟨⟨"etag-1", rfl, by decide⟩, ⟨"etag-1", rfl, by decide⟩, rfl⟩⟩

theorem flag_hit_frame_witness : (flagRun wOracles "g" [] wDC wEC).ec = wEC :=
  flag_hit_frame wOracles "g" [] wDC wEC wDC 5 rfl (by decide)


/-- C8 counterexample to the claim as stated: on this miss the
evaluation cache's definitions field ends up holding the fetched
payload (7) while the definitions cache's current definitions
reference is `none` — the two differ, so "definitions: the definitions
cache's current definitions reference" is false of the code. -/
theorem flag_miss_defs_counterexample :
    (flagRun cxOracles "f" [] cxDC cxEC).ec.definitions = some 7 ∧
      (flagRun cxOracles "f" [] cxDC cxEC).dc.definitions = none := by
  constructor <;> rfl

theorem flag_miss_overwrite_witness :
    (flagRun cxOracles "f" [] cxDC cxEC).ec =
      ⟨none, some 7, some (serializeContext []), some [3]⟩ :=
  flag_miss_overwrite cxOracles "f" [] cxDC cxEC cxDC 7 [3] rfl (by decide) rfl

/-! ### Association-list lemmas shared by `hset`/`hlookup` and
`mapSet`/`mapGet`/`mapDelete` -/

theorem find_map_set {α : Type} (k : String) (v : α) :
    ∀ (m : List (String × α)), m.any (fun e => e.1 == k) = true →
      ((m.map (fun e => if e.1 == k then (k, v) else e)).find?
        (fun e => e.1 == k)).map (fun e => e.2) = some v := by
  intro m
  induction m with
  | nil => intro h; simp at h
  | cons e t ih =>
    intro ha
    by_cases hk : (e.1 == k) = true
    · rw [List.map_cons, if_pos hk,
        @List.find?_cons_of_pos _ (fun e => e.1 == k) (k, v) _ (by simp)]
      rfl
    · have ha' : t.any (fun e => e.1 == k) = true := by simpa [hk] using ha
      rw [List.map_cons, if_neg hk,
        @List.find?_cons_of_neg _ (fun e => e.1 == k) e _ hk]
      exact ih ha'

theorem find_append_single {α : Type} (k : String) (v : α) :
    ∀ (m : List (String × α)), m.any (fun e => e.1 == k) = false →
      ((m ++ [(k, v)]).find? (fun e => e.1 == k)).map (fun e => e.2) = some v := by
  intro m
  induction m with
  | nil =>
    intro _
    rw [List.nil_append,
      @List.find?_cons_of_pos _ (fun e => e.1 == k) (k, v) _ (by simp)]
    rfl
  | cons e t ih =>
    intro ha
    rw [List.any_cons] at ha
    have hk : ¬(e.1 == k) = true := by
      cases h : (e.1 == k) <;> simp [h] at ha ⊢
    have ha' : t.any (fun e => e.1 == k) = false := by
      cases h : t.any (fun e => e.1 == k) <;> simp [h, hk] at ha ⊢
    rw [List.cons_append, @List.find?_cons_of_neg _ (fun e => e.1 == k) e _ hk]
    exact ih ha'

theorem find_filter_ne {α : Type} (k : String) :
    ∀ (m : List (String × α)),
      (m.filter (fun e => !(e.1 == k))).find? (fun e => e.1 == k) = none := by
  intro m
  induction m with
  | nil => rfl
  | cons e t ih =>
    by_cases hk : (e.1 == k) = true
    · rw [@List.filter_cons_of_neg _ (fun e => !(e.1 == k)) e _ (by simp [hk])]
      exact ih
    · rw [@List.filter_cons_of_pos _ (fun e => !(e.1 == k)) e _ (by simp [hk]),
        @List.find?_cons_of_neg _ (fun e => e.1 == k) e _ hk]
      exact ih

theorem hlookup_hset_self (h : Headers) (k v : String) :
    hlookup (hset h k v) k = some v := by
  unfold hlookup hset
  by_cases ha : h.any (fun kv => kv.1 == k) = true
  · simpa [ha] using find_map_set k v h ha
  · have ha' : h.any (fun kv => kv.1 == k) = false := by
      cases hx : h.any (fun kv => kv.1 == k) <;> simp [hx] at ha ⊢
    simpa [ha'] using find_append_single k v h ha'

theorem mapGet_mapSet_self (m : DefsMap) (k : String) (v : CacheEntry) :
    mapGet (mapSet m k v) k = some v := by
  unfold mapGet mapSet
  by_cases ha : m.any (fun e => e.1 == k) = true
  · simpa [ha] using find_map_set k v m ha
  · have ha' : m.any (fun e => e.1 == k) = false := by
      cases hx : m.any (fun e => e.1 == k) <;> simp [hx] at ha ⊢
    simpa [ha'] using find_append_single k v m ha'

theorem mapGet_mapDelete_self (m : DefsMap) (k : String) :
    mapGet (mapDelete m k) k = none := by
  unfold mapGet mapDelete
  simp [find_filter_ne]

/-! ### Claim theorems about `getDefinitions` -/

/-- C3: on a 304 response the call returns exactly the stored payload
when the cache holds one for the computed key (whatever the response
body is — it is never parsed, and the cache is untouched), and fails
with the stale-cache error when it does not; no other outcome exists
on the 304 path. -/
theorem fetch_304 (cfg : FetchConfig) (cache : DefsMap) (respond : Headers → Response)
    (resp : Response) (hresp : respond (sentHeadersOf cfg cache) = resp)
    (h304 : resp.status = 304) :
    (∀ entry d, mapGet cache (cacheKeyOf cfg) = some entry → entry.definitions = some d →
        (getDefinitions cfg cache respond).result = Except.ok d ∧
        (getDefinitions cfg cache respond).cache = cache) ∧
      ((mapGet cache (cacheKeyOf cfg)).bind CacheEntry.definitions = none →
        (getDefinitions cfg cache respond).result = Except.error FetchError.staleCache ∧
        (getDefinitions cfg cache respond).cache = cache) := by
  constructor
  · intro entry d hentry hdef
    simp [getDefinitions, hresp, handleResponse, h304, hentry, hdef]
  · intro hnone
    simp [getDefinitions, hresp, handleResponse, h304, hnone]

/-- C6: a response whose status is neither 2xx nor 304 has its parsed
body returned with the definitions cache entirely unchanged; and a 304
leaves the cache unchanged no matter what ETag the 304 carries. -/
theorem fetch_other_frame (cfg : FetchConfig) (cache : DefsMap)
    (respond : Headers → Response) (resp : Response)
    (hresp : respond (sentHeadersOf cfg cache) = resp) :
    (∀ d, respOk resp.status = false → resp.status ≠ 304 → resp.body = Except.ok d →
        (getDefinitions cfg cache respond).result = Except.ok d ∧
        (getDefinitions cfg cache respond).cache = cache) ∧
      (resp.status = 304 → (getDefinitions cfg cache respond).cache = cache) := by
  constructor
  · intro d hok hn304 hbody
    have h : (resp.status == 304) = false := by simpa using hn304
    simp [getDefinitions, hresp, handleResponse, h, hbody, hok]
  · intro h304
    rcases hdef : (mapGet cache (cacheKeyOf cfg)).bind CacheEntry.definitions with _ | d
    · simp [getDefinitions, hresp, handleResponse, h304, hdef]
    · simp [getDefinitions, hresp, handleResponse, h304, hdef]

/-- C10: on any non-304 response whose body fails to parse, the error
propagates and the definitions cache is left entirely unchanged — the
parse precedes every cache write. -/
theorem fetch_parse_error (cfg : FetchConfig) (cache : DefsMap)
    (respond : Headers → Response) (resp : Response) (e : Nat)
    (hresp : respond (sentHeadersOf cfg cache) = resp)
    (hn304 : resp.status ≠ 304) (hbody : resp.body = Except.error e) :
    (getDefinitions cfg cache respond).result = Except.error (FetchError.parse e) ∧
      (getDefinitions cfg cache respond).cache = cache := by
  have h : (resp.status == 304) = false := by simpa using hn304
  simp [getDefinitions, hresp, handleResponse, h, hbody]

/-- C4 (amended): on a 2xx response with a parsed payload, a non-empty
ETag header makes the cache entry at the computed key become
`{etag, definitions: payload}` (replacing any prior entry); a missing —
or empty, which the source's truthiness check treats the same — ETag
header leaves no entry at that key, and a following call for the same
key whose merged headers carry no conditional header sends none. -/
theorem fetch_2xx_cache (cfg : FetchConfig) (cache : DefsMap) (respond : Headers → Response)
    (resp : Response) (d : Nat)
    (hresp : respond (sentHeadersOf cfg cache) = resp)
    (hok : respOk resp.status = true) (hbody : resp.body = Except.ok d) :
    (∀ t, resp.etagHeader = some t → t ≠ "" →
        mapGet (getDefinitions cfg cache respond).cache (cacheKeyOf cfg) =
          some ⟨some t, some d⟩) ∧
      ((resp.etagHeader = none ∨ resp.etagHeader = some "") →
        mapGet (getDefinitions cfg cache respond).cache (cacheKeyOf cfg) = none ∧
          (hlookup (buildHeaders cfg) "if-none-match" = none →
            hlookup (sentHeadersOf cfg (getDefinitions cfg cache respond).cache)
              "if-none-match" = none)) := by
  have hn : (resp.status == 304) = false := by
    have := hok
    unfold respOk at this
    simp only [Bool.and_eq_true, decide_eq_true_eq] at this
    simp only [beq_eq_false_iff_ne, ne_eq]
    omega
  constructor
  · intro t ht hne
    have htne : (t == "") = false := by simpa using hne
    simp [getDefinitions, hresp, handleResponse, hn, hbody, hok, ht, htne,
      mapGet_mapSet_self]
  · intro hcase
    have hdel : (getDefinitions cfg cache respond).cache =
        mapDelete cache (cacheKeyOf cfg) := by
      rcases hcase with h0 | h0
      · simp [getDefinitions, hresp, handleResponse, hn, hbody, hok, h0]
      · simp [getDefinitions, hresp, handleResponse, hn, hbody, hok, h0]
    rw [hdel]
    refine ⟨mapGet_mapDelete_self cache (cacheKeyOf cfg), ?_⟩
    intro hinm
    unfold sentHeadersOf injectINM
    rw [mapGet_mapDelete_self cache (cacheKeyOf cfg)]
    simp [hinm, truthyO]


/-- C4 counterexample to the claim as stated: this 2xx response does
carry an ETag header (value `""`), yet afterwards the cache holds no
entry at the computed key rather than `{etag: "", definitions}` — the
source checks the header's truthiness, not its presence. -/
theorem fetch_etag_counterexample :
    (c4respond (sentHeadersOf c4cfg [])).etagHeader = some "" ∧
      mapGet (getDefinitions c4cfg [] c4respond).cache (cacheKeyOf c4cfg) ≠
        some ⟨some "", some 3⟩ := by
  constructor
  · rfl
  · decide


theorem fetch_2xx_cache_witness :
    mapGet (getDefinitions c4cfg [] c4wrespond).cache (cacheKeyOf c4cfg) =
      some ⟨some "etag-1", some 3⟩ :=
  (fetch_2xx_cache c4cfg [] c4wrespond ⟨200, some "etag-1", Except.ok 3⟩ 3 rfl
    (by decide) rfl).1 "etag-1" rfl (by decide)

/-- C5 (amended): the outgoing conditional header obeys three rules —
a non-empty caller-supplied `if-none-match` value (merged with
lower-cased keys, so under any letter-casing) is sent unchanged; when
the merged headers carry no truthy conditional value and the cache
holds a non-empty etag for the computed key, that etag is sent; and
when neither side supplies a truthy value nothing is injected, the
merged headers' value passing through as-is. -/
theorem inm_header_rule (cfg : FetchConfig) (cache : DefsMap) :
    (∀ v, hlookup (buildHeaders cfg) "if-none-match" = some v → v ≠ "" →
        hlookup (sentHeadersOf cfg cache) "if-none-match" = some v) ∧
      (∀ e, truthyO (hlookup (buildHeaders cfg) "if-none-match") = false →
        (mapGet cache (cacheKeyOf cfg)).bind CacheEntry.etag = some e → e ≠ "" →
        hlookup (sentHeadersOf cfg cache) "if-none-match" = some e) ∧
      (truthyO (hlookup (buildHeaders cfg) "if-none-match") = false →
        truthyO ((mapGet cache (cacheKeyOf cfg)).bind CacheEntry.etag) = false →
        hlookup (sentHeadersOf cfg cache) "if-none-match" =
          hlookup (buildHeaders cfg) "if-none-match") := by
  refine ⟨?_, ?_, ?_⟩
  · intro v hv hne
    have hvt : truthyO (some v) = true := by simp [truthyO]; simpa using hne
    unfold sentHeadersOf injectINM
    rw [hv]
    simp [hvt, hv]
  · intro e hf he hne
    have het : truthyO (some e) = true := by simp [truthyO]; simpa using hne
    unfold sentHeadersOf injectINM
    rw [he]
    simp [hf, het, hlookup_hset_self]
  · intro hf hc
    unfold sentHeadersOf injectINM
    simp [hf, hc]


/-- C5 counterexample to the claim as stated: the caller supplied an
explicit conditional header (value `""`, under mixed casing), yet the
cache-derived etag overrides it — the source's truthiness check treats
the empty caller value as absent. -/
theorem inm_override_counterexample :
    hlookup (buildHeaders c5cfg) "if-none-match" = some "" ∧
      hlookup (sentHeadersOf c5cfg c5cache) "if-none-match" = some "etag-1" := by
  constructor
  · decide
  · decide


theorem inm_header_rule_witness :
    hlookup (sentHeadersOf c5wcfg c5wcache) "if-none-match" = some "etag-9" :=
  (inm_header_rule c5wcfg c5wcache).2.1 "etag-9" (by decide) (by decide) (by decide)


/-! ### The composite cache key determines its fields (C7)

The key is `JSON.stringify` output; the decoder below recovers the
four composing fields from it, so equal keys force equal fields. -/

theorem hexVal_hexDigit : ∀ n < 16, hexVal (hexDigit n) = n := by decide

theorem unescF_escStr (s : Chars) : ∀ (t : Chars) (fuel : Nat),
    (escStr s ++ ('"' :: t)).length ≤ fuel →
    unescapeF fuel (escStr s ++ ('"' :: t)) = some (s, t) := by
  induction s with
  | nil =>
    intro t fuel h
    cases fuel with
    | zero => simp [escStr] at h
    | succ f => simp [escStr, unescapeF]
  | cons c cs ih =>
    intro t fuel h
    have hrw : escStr (c :: cs) ++ ('"' :: t) = escChar c ++ (escStr cs ++ ('"' :: t)) := by
      rw [show escStr (c :: cs) = escChar c ++ escStr cs from rfl, List.append_assoc]
    rw [hrw] at h ⊢
    by_cases h1 : c = '"'
    · subst h1
      have hc : escChar ('"') = ['\\', '"'] := rfl
      rw [hc] at h ⊢
      simp only [List.cons_append, List.nil_append] at h ⊢
      cases fuel with
      | zero => simp at h
      | succ f =>
        have hstep : unescapeF (f + 1) ('\\' :: '"' :: (escStr cs ++ ('"' :: t))) =
            (unescapeF f (escStr cs ++ ('"' :: t))).map (fun p => ('"' :: p.1, p.2)) := rfl
        rw [hstep, ih t f (by simp at h ⊢; omega)]
        rfl
    ·
      by_cases h2 : c = '\\'
      · subst h2
        have hc : escChar ('\\') = ['\\', '\\'] := rfl
        rw [hc] at h ⊢
        simp only [List.cons_append, List.nil_append] at h ⊢
        cases fuel with
        | zero => simp at h
        | succ f =>
          have hstep : unescapeF (f + 1) ('\\' :: '\\' :: (escStr cs ++ ('"' :: t))) =
              (unescapeF f (escStr cs ++ ('"' :: t))).map (fun p => ('\\' :: p.1, p.2)) := rfl
          rw [hstep, ih t f (by simp at h ⊢; omega)]
          rfl
      ·
        by_cases h3 : c = Char.ofNat 8
        · subst h3
          have hc : escChar (Char.ofNat 8) = ['\\', 'b'] := rfl
          rw [hc] at h ⊢
          simp only [List.cons_append, List.nil_append] at h ⊢
          cases fuel with
          | zero => simp at h
          | succ f =>
            have hstep : unescapeF (f + 1) ('\\' :: 'b' :: (escStr cs ++ ('"' :: t))) =
                (unescapeF f (escStr cs ++ ('"' :: t))).map (fun p => (Char.ofNat 8 :: p.1, p.2)) := rfl
            rw [hstep, ih t f (by simp at h ⊢; omega)]
            rfl
        ·
          by_cases h4 : c = Char.ofNat 9
          · subst h4
            have hc : escChar (Char.ofNat 9) = ['\\', 't'] := rfl
            rw [hc] at h ⊢
            simp only [List.cons_append, List.nil_append] at h ⊢
            cases fuel with
            | zero => simp at h
            | succ f =>
              have hstep : unescapeF (f + 1) ('\\' :: 't' :: (escStr cs ++ ('"' :: t))) =
                  (unescapeF f (escStr cs ++ ('"' :: t))).map (fun p => (Char.ofNat 9 :: p.1, p.2)) := rfl
              rw [hstep, ih t f (by simp at h ⊢; omega)]
              rfl
          ·
            by_cases h5 : c = Char.ofNat 10
            · subst h5
              have hc : escChar (Char.ofNat 10) = ['\\', 'n'] := rfl
              rw [hc] at h ⊢
              simp only [List.cons_append, List.nil_append] at h ⊢
              cases fuel with
              | zero => simp at h
              | succ f =>
                have hstep : unescapeF (f + 1) ('\\' :: 'n' :: (escStr cs ++ ('"' :: t))) =
                    (unescapeF f (escStr cs ++ ('"' :: t))).map (fun p => (Char.ofNat 10 :: p.1, p.2)) := rfl
                rw [hstep, ih t f (by simp at h ⊢; omega)]
                rfl
            ·
              by_cases h6 : c = Char.ofNat 12
              · subst h6
                have hc : escChar (Char.ofNat 12) = ['\\', 'f'] := rfl
                rw [hc] at h ⊢
                simp only [List.cons_append, List.nil_append] at h ⊢
                cases fuel with
                | zero => simp at h
                | succ f =>
                  have hstep : unescapeF (f + 1) ('\\' :: 'f' :: (escStr cs ++ ('"' :: t))) =
                      (unescapeF f (escStr cs ++ ('"' :: t))).map (fun p => (Char.ofNat 12 :: p.1, p.2)) := rfl
                  rw [hstep, ih t f (by simp at h ⊢; omega)]
                  rfl
              ·
                by_cases h7 : c = Char.ofNat 13
                · subst h7
                  have hc : escChar (Char.ofNat 13) = ['\\', 'r'] := rfl
                  rw [hc] at h ⊢
                  simp only [List.cons_append, List.nil_append] at h ⊢
                  cases fuel with
                  | zero => simp at h
                  | succ f =>
                    have hstep : unescapeF (f + 1) ('\\' :: 'r' :: (escStr cs ++ ('"' :: t))) =
                        (unescapeF f (escStr cs ++ ('"' :: t))).map (fun p => (Char.ofNat 13 :: p.1, p.2)) := rfl
                    rw [hstep, ih t f (by simp at h ⊢; omega)]
                    rfl
                ·
                  by_cases h8 : c.toNat < 32
                  · have hc : escChar c =
                        ['\\', 'u', '0', '0', hexDigit (c.toNat / 16), hexDigit (c.toNat % 16)] := by
                      unfold escChar
                      rw [if_neg h1, if_neg h2, if_neg h3, if_neg h4, if_neg h5, if_neg h6, if_neg h7,
                        if_pos h8]
                    rw [hc] at h ⊢
                    simp only [List.cons_append, List.nil_append] at h ⊢
                    cases fuel with
                    | zero => simp at h
                    | succ f =>
                      have hstep : unescapeF (f + 1)
                          ('\\' :: 'u' :: '0' :: '0' :: hexDigit (c.toNat / 16) :: hexDigit (c.toNat % 16)
                            :: (escStr cs ++ ('"' :: t))) =
                          (unescapeF f (escStr cs ++ ('"' :: t))).map
                            (fun p =>
                              (Char.ofNat (((hexVal '0' * 16 + hexVal '0') * 16 +
                                  hexVal (hexDigit (c.toNat / 16))) * 16 + hexVal (hexDigit (c.toNat % 16)))
                                :: p.1, p.2)) := rfl
                      rw [hstep, ih t f (by simp at h ⊢; omega)]
                      have hv0 : hexVal '0' = 0 := rfl
                      have hhi : hexVal (hexDigit (c.toNat / 16)) = c.toNat / 16 :=
                        hexVal_hexDigit (c.toNat / 16) (by omega)
                      have hlo : hexVal (hexDigit (c.toNat % 16)) = c.toNat % 16 :=
                        hexVal_hexDigit (c.toNat % 16) (by omega)
                      rw [hv0, hhi, hlo]
                      have hn : ((0 * 16 + 0) * 16 + c.toNat / 16) * 16 + c.toNat % 16 = c.toNat := by
                        omega
                      rw [hn, Char.ofNat_toNat]
                      rfl
                  · have hc : escChar c = [c] := by
                      unfold escChar
                      rw [if_neg h1, if_neg h2, if_neg h3, if_neg h4, if_neg h5, if_neg h6, if_neg h7,
                        if_neg h8]
                    rw [hc] at h ⊢
                    simp only [List.cons_append, List.nil_append] at h ⊢
                    cases fuel with
                    | zero => simp at h
                    | succ f =>
                      have hstep : unescapeF (f + 1) (c :: (escStr cs ++ ('"' :: t))) =
                          (unescapeF f (escStr cs ++ ('"' :: t))).map (fun p => (c :: p.1, p.2)) := by
                        simp only [unescapeF, if_neg h1, if_neg h2]
                      rw [hstep, ih t f (by simp at h ⊢; omega)]
                      rfl

theorem stripL_append : ∀ (p t : Chars), stripL p (p ++ t) = some t := by
  intro p
  induction p with
  | nil => intro t; rfl
  | cons x ps ih => intro t; simp [stripL, ih]

theorem decodeKey_encodeKeyObj (u a i n : Chars) :
    decodeKey (encodeKeyObj u a i n) = some (u, a, i, n) := by
  have hE : encodeKeyObj u a i n = keyP1 ++ (escStr u ++ ('"' :: (keyP2 ++ (escStr a ++ ('"' :: (keyP3 ++ (escStr i ++ ('"' :: (keyP4 ++ (escStr n ++ ('"' :: [rbrace]))))))))))) := rfl
  have hb1 : (escStr u ++ ('"' :: (keyP2 ++ (escStr a ++ ('"' :: (keyP3 ++ (escStr i ++ ('"' :: (keyP4 ++ (escStr n ++ ('"' :: [rbrace]))))))))))).length ≤ (keyP1 ++ (escStr u ++ ('"' :: (keyP2 ++ (escStr a ++ ('"' :: (keyP3 ++ (escStr i ++ ('"' :: (keyP4 ++ (escStr n ++ ('"' :: [rbrace])))))))))))).length := by
    simp [List.length_append]
  have hb2 : (escStr a ++ ('"' :: (keyP3 ++ (escStr i ++ ('"' :: (keyP4 ++ (escStr n ++ ('"' :: [rbrace])))))))).length ≤ (keyP1 ++ (escStr u ++ ('"' :: (keyP2 ++ (escStr a ++ ('"' :: (keyP3 ++ (escStr i ++ ('"' :: (keyP4 ++ (escStr n ++ ('"' :: [rbrace])))))))))))).length := by
    simp [List.length_append, List.length_cons]
    omega
  have hb3 : (escStr i ++ ('"' :: (keyP4 ++ (escStr n ++ ('"' :: [rbrace]))))).length ≤ (keyP1 ++ (escStr u ++ ('"' :: (keyP2 ++ (escStr a ++ ('"' :: (keyP3 ++ (escStr i ++ ('"' :: (keyP4 ++ (escStr n ++ ('"' :: [rbrace])))))))))))).length := by
    simp [List.length_append, List.length_cons]
    omega
  have hb4 : (escStr n ++ ('"' :: [rbrace])).length ≤ (keyP1 ++ (escStr u ++ ('"' :: (keyP2 ++ (escStr a ++ ('"' :: (keyP3 ++ (escStr i ++ ('"' :: (keyP4 ++ (escStr n ++ ('"' :: [rbrace])))))))))))).length := by
    simp [List.length_append, List.length_cons]
    omega
  simp only [decodeKey]
  rw [hE, stripL_append]
  simp only [Option.some_bind]
  rw [unescF_escStr u _ _ hb1]
  simp only [Option.some_bind]
  rw [stripL_append]
  simp only [Option.some_bind]
  rw [unescF_escStr a _ _ hb2]
  simp only [Option.some_bind]
  rw [stripL_append]
  simp only [Option.some_bind]
  rw [unescF_escStr i _ _ hb3]
  simp only [Option.some_bind]
  rw [stripL_append]
  simp only [Option.some_bind]
  rw [unescF_escStr n _ _ hb4]
  rfl

theorem strData_inj (x y : String) (hxy : x.data = y.data) : x = y := by
  cases x
  cases y
  exact congrArg String.mk hxy

theorem encodeKeyObj_inj {u a i n u2 a2 i2 n2 : Chars}
    (h : encodeKeyObj u a i n = encodeKeyObj u2 a2 i2 n2) :
    u = u2 ∧ a = a2 ∧ i = i2 ∧ n = n2 := by
  have hd := congrArg decodeKey h
  rw [decodeKey_encodeKeyObj, decodeKey_encodeKeyObj] at hd
  simpa using hd

/-- C7: two composite cache keys are equal exactly when the endpoint
URL and the three identity fields the source extracts (with the
`|| ""` defaulting) are equal — so the key is a function of those four
fields alone, independent of request timing and of all remaining
headers, and injective in them: two callers on the same URL with
different credentials never share a cache entry. -/
theorem getCacheKey_inj (u : String) (h : Headers) (u2 : String) (h2 : Headers) :
    getCacheKey u h = getCacheKey u2 h2 ↔
      (u = u2 ∧
        (hlookup h "authorization").getD "" = (hlookup h2 "authorization").getD "" ∧
        (hlookup h "unleash-instanceid").getD "" =
          (hlookup h2 "unleash-instanceid").getD "" ∧
        (hlookup h "unleash-appname").getD "" = (hlookup h2 "unleash-appname").getD "") := by
  constructor
  · intro heq
    unfold getCacheKey at heq
    have hd := congrArg String.data heq
    obtain ⟨e1, e2, e3, e4⟩ := encodeKeyObj_inj hd
    exact ⟨strData_inj _ _ e1, strData_inj _ _ e2, strData_inj _ _ e3, strData_inj _ _ e4⟩
  · rintro ⟨e1, e2, e3, e4⟩
    unfold getCacheKey
    rw [e1, e2, e3, e4]

theorem flag_error_boundary_witness :
    (∃ e, (flagRun wOracles "f" [] wDC wEC).result = ⟨false, emptyVariant, some e⟩) ∨
      (∃ toggles client en v,
        (flagRun wOracles "f" [] wDC wEC).togglesUsed = some toggles ∧
        wOracles.flagsClient toggles = Except.ok client ∧
        client.isEnabled "f" = Except.ok en ∧
        client.getVariant "f" = Except.ok v ∧
        (flagRun wOracles "f" [] wDC wEC).result = ⟨en, v, none⟩) :=
  flag_error_boundary wOracles "f" [] wDC wEC

theorem fetch_304_witness :
    (getDefinitions c3cfg c3cache c3respond).result = Except.ok 42 ∧
      (getDefinitions c3cfg c3cache c3respond).cache = c3cache :=
  (fetch_304 c3cfg c3cache c3respond ⟨304, some "etag-1", Except.error 0⟩ rfl rfl).1
    ⟨some "etag-1", some 42⟩ 42 (by decide) rfl

theorem fetch_other_frame_witness :
    (getDefinitions c6cfg [] c6respond).result = Except.ok 9 ∧
      (getDefinitions c6cfg [] c6respond).cache = [] :=
  (fetch_other_frame c6cfg [] c6respond ⟨500, none, Except.ok 9⟩ rfl).1 9
    (by decide) (by decide) rfl

theorem fetch_parse_error_witness :
    (getDefinitions c10cfg [] c10respond).result = Except.error (FetchError.parse 4) ∧
      (getDefinitions c10cfg [] c10respond).cache = [] :=
  fetch_parse_error c10cfg [] c10respond ⟨200, some "e", Except.error 4⟩ 4 rfl
    (by decide) rfl

theorem getCacheKey_inj_witness :
    getCacheKey "http://u" [] = getCacheKey "http://u" [("x-extra", "1")] :=
  (getCacheKey_inj "http://u" [] "http://u" [("x-extra", "1")]).mpr
    ⟨rfl, by decide, by decide, by decide⟩


end Unleash
